import Mathlib

set_option autoImplicit false

/-!
Shallow embedding of `src/bank.c` (a single-file bank-account ledger with
account-number recycling) and proofs of the specification claims.

Modelling conventions:
* C linked lists (`AccountList`, `DeletedAccountNumList`) become Lean `List`s.
* The C `float Amount` is modelled as `ℚ`, per the instruction of the spec to treat
  balances as exact decimal values.
* C `int` account numbers, the global counter and transaction codes are `Int`.
* Console output is abstracted into result/output inductives, one constructor
  per distinct message family the C code can print.
* The two selection sorts walk the list exactly as the C loops do: an outer
  pass per node (fuel = list length), an inner scan that keeps the first
  strictly smaller element, then a single swap of position 0 with the found
  minimum position.
-/

/-- The C `enum AccountType` from bank.c. -/
inductive AccountType where
  | SAVINGS
  | CURRENT
deriving DecidableEq

/-- The C `struct Node` (AccountNode) from bank.c: one bank account. -/
structure AccountNode where
  AccountNumber : Int
  Name : String
  accountType : AccountType
  Amount : ℚ
deriving DecidableEq

/-- C function `addDeletedAccountNum`: appends a freed number at the end of the recycle list. -/
def addDeletedAccountNum (list : List Int) (accountNumToAdd : Int) : List Int :=
  list ++ [accountNumToAdd]

/-- Inner scan of `sortDeletedAccountNumList`: running minimum of the account
numbers, keeping the first strictly smaller value (the C `runner` loop). -/
def minRunnerInt (v : Int) : List Int → Int
  | [] => v
  | y :: ys => if y < v then minRunnerInt y ys else minRunnerInt v ys

/-- The swap step of `sortDeletedAccountNumList`: the first node holding the
minimum value `v` is exchanged with the front node `x`.  Returns the value
moved to the front and the remainder of the list after the swap. -/
def swapFirstInt (v x : Int) : List Int → Int × List Int
  | [] => (x, [])
  | y :: ys =>
    if y = v then (y, x :: ys)
    else
      let p := swapFirstInt v x ys
      (p.1, y :: p.2)

/-- Outer loop of `sortDeletedAccountNumList`; `fuel` counts the remaining
outer iterations (one per node, so the fuel is the list length). -/
def sortDeletedAux : Nat → List Int → List Int
  | 0, l => l
  | _ + 1, [] => []
  | n + 1, x :: xs =>
    if minRunnerInt x xs = x then x :: sortDeletedAux n xs
    else
      (swapFirstInt (minRunnerInt x xs) x xs).1 ::
        sortDeletedAux n (swapFirstInt (minRunnerInt x xs) x xs).2

/-- C function `sortDeletedAccountNumList`: selection sort of the recycle list, ascending. -/
def sortDeletedAccountNumList (l : List Int) : List Int :=
  sortDeletedAux l.length l

/-- Result of `createAccount`: the updated recycle list, updated account list,
updated global counter, and the account number printed for the new account. -/
structure CreateResult where
  deletedNums : List Int
  accounts : List AccountNode
  nextNum : Int
  newNumber : Int
deriving DecidableEq

/-- C function `createAccount`: takes the head of the (already sorted) recycle list if it
is non-empty, otherwise uses and post-increments the global counter; the new
node is appended at the end of the account list. -/
def createAccount (deletedNums : List Int) (list : List AccountNode)
    (accountType : AccountType) (Name : String) (Amount : ℚ)
    (globalNext : Int) : CreateResult :=
  match deletedNums with
  | n :: rest =>
    { deletedNums := rest
      accounts := list ++
        [{ AccountNumber := n, Name := Name, accountType := accountType, Amount := Amount }]
      nextNum := globalNext
      newNumber := n }
  | [] =>
    { deletedNums := []
      accounts := list ++
        [{ AccountNumber := globalNext, Name := Name, accountType := accountType,
           Amount := Amount }]
      nextNum := globalNext + 1
      newNumber := globalNext }

/-- C function `deleteAccount`: removes the first account matching `(Name, accountType)`
and returns the new list together with the removed account number, or `-1`
when no account matches (the C sentinel left in `*deletedAccountNumber`). -/
def deleteAccount (list : List AccountNode) (accountType : AccountType)
    (Name : String) : List AccountNode × Int :=
  match list with
  | [] => ([], -1)
  | a :: rest =>
    if a.Name = Name ∧ a.accountType = accountType then (rest, a.AccountNumber)
    else
      let p := deleteAccount rest accountType Name
      (a :: p.1, p.2)

/-- C function `lowBalanceAccounts` prints the accounts whose balance is strictly below
Rs 100; this is the row list it prints. -/
def lowBalanceAccounts (l : List AccountNode) : List AccountNode :=
  l.filter (fun a => decide (a.Amount < 100))

/-- Outcome of `transaction`, one constructor per message family printed. -/
inductive TransResult where
  | noAccounts
  | accountNotFound
  | depositOk (newBalance : ℚ)
  | withdrawOk (newBalance : ℚ)
  | insufficientSavings
  | insufficientCurrent
  | invalidCode
deriving DecidableEq

/-- Body of the traversal loop of `transaction`: first node with the requested
number is acted on; falling off the end prints the not-found message. -/
def transactionAux (list : List AccountNode) (transactionAccountNumber : Int)
    (amount : ℚ) (code : Int) : List AccountNode × TransResult :=
  match list with
  | [] => ([], .accountNotFound)
  | a :: rest =>
    if a.AccountNumber = transactionAccountNumber then
      if code = 1 then
        ({ a with Amount := a.Amount + amount } :: rest, .depositOk (a.Amount + amount))
      else if code = 0 then
        if a.accountType = .SAVINGS ∧ a.Amount - amount < 100 then
          (a :: rest, .insufficientSavings)
        else if a.accountType = .CURRENT ∧ a.Amount - amount < 0 then
          (a :: rest, .insufficientCurrent)
        else
          ({ a with Amount := a.Amount - amount } :: rest, .withdrawOk (a.Amount - amount))
      else (a :: rest, .invalidCode)
    else
      let p := transactionAux rest transactionAccountNumber amount code
      (a :: p.1, p.2)

/-- C function `transaction`: the empty list short-circuits with its own message before
the traversal loop runs. -/
def transaction (list : List AccountNode) (transactionAccountNumber : Int)
    (amount : ℚ) (code : Int) : List AccountNode × TransResult :=
  match list with
  | [] => ([], .noAccounts)
  | a :: rest => transactionAux (a :: rest) transactionAccountNumber amount code

/-- Inner scan of `sortAccountListByNumber`: running minimum account number. -/
def minRunnerAcc (v : Int) : List AccountNode → Int
  | [] => v
  | a :: rest =>
    if a.AccountNumber < v then minRunnerAcc a.AccountNumber rest
    else minRunnerAcc v rest

/-- Swap step of `sortAccountListByNumber`.  The C code exchanges the four
fields (`AccountNumber`, `Name`, `accountType`, `Amount`) of the front node
and the minimum node one at a time; this is mirrored by rebuilding each of the
two records field by field from the other. -/
def swapFirstAcc (v : Int) (x : AccountNode) :
    List AccountNode → AccountNode × List AccountNode
  | [] => (x, [])
  | y :: ys =>
    if y.AccountNumber = v then
      ({ AccountNumber := y.AccountNumber, Name := y.Name,
         accountType := y.accountType, Amount := y.Amount },
       { AccountNumber := x.AccountNumber, Name := x.Name,
         accountType := x.accountType, Amount := x.Amount } :: ys)
    else
      let p := swapFirstAcc v x ys
      (p.1, y :: p.2)

/-- Outer loop of `sortAccountListByNumber`, fueled by the list length. -/
def sortAccountsAux : Nat → List AccountNode → List AccountNode
  | 0, l => l
  | _ + 1, [] => []
  | n + 1, x :: xs =>
    if minRunnerAcc x.AccountNumber xs = x.AccountNumber then x :: sortAccountsAux n xs
    else
      (swapFirstAcc (minRunnerAcc x.AccountNumber xs) x xs).1 ::
        sortAccountsAux n (swapFirstAcc (minRunnerAcc x.AccountNumber xs) x xs).2

/-- C function `sortAccountListByNumber`: selection sort of the accounts by number. -/
def sortAccountListByNumber (l : List AccountNode) : List AccountNode :=
  sortAccountsAux l.length l

/-- C function `checkDuplicateAccount`: is there a live account with this exact name and
type? -/
def checkDuplicateAccount (list : List AccountNode) (Name : String)
    (accountType : AccountType) : Bool :=
  match list with
  | [] => false
  | a :: rest =>
    if a.Name = Name ∧ a.accountType = accountType then true
    else checkDuplicateAccount rest Name accountType

/-- The mutable state of `main`: the recycle list head, the account list head
and the global fresh-number counter. -/
structure BankState where
  deletedAccountNumbersHead : List Int
  accountsHead : List AccountNode
  globalNextAccountNumber : Int
deriving DecidableEq

/-- State at program start: both lists empty, counter at 100. -/
def initialState : BankState :=
  { deletedAccountNumbersHead := [], accountsHead := [], globalNextAccountNumber := 100 }

/-- The commands `main` dispatches on (EXIT only tears the lists down). -/
inductive Command where
  | CREATE (accountTypeStr : String) (name : String) (amount : ℚ)
  | DELETE (accountTypeStr : String) (name : String)
  | DISPLAY
  | TRANSACTION (num : Int) (amount : ℚ) (code : Int)
  | LOWBALANCE

/-- The conversion in `main` of the account-type string, rejecting anything other
than the exact strings "savings" and "current". -/
def parseAccountType (s : String) : Option AccountType :=
  if s = "savings" then some .SAVINGS
  else if s = "current" then some .CURRENT
  else none

/-- Observable outcome of one command, one constructor per message family. -/
inductive Output where
  | created (num : Int)
  | duplicate
  | invalidType
  | deleted (num : Int)
  | deleteNotFound
  | table (rows : List AccountNode)
  | lowTable (rows : List AccountNode)
  | trans (r : TransResult)
deriving DecidableEq

/-- One iteration of the command loop of `main`: the state update and the printed
outcome for each command, exactly as dispatched in the `main` of bank.c. -/
def step (s : BankState) (c : Command) : BankState × Output :=
  match c with
  | .CREATE tstr name amt =>
    match parseAccountType tstr with
    | none => (s, .invalidType)
    | some t =>
      if checkDuplicateAccount s.accountsHead name t then (s, .duplicate)
      else
        let r := createAccount (sortDeletedAccountNumList s.deletedAccountNumbersHead)
          s.accountsHead t name amt s.globalNextAccountNumber
        ({ deletedAccountNumbersHead := r.deletedNums, accountsHead := r.accounts,
           globalNextAccountNumber := r.nextNum }, .created r.newNumber)
  | .DELETE tstr name =>
    match parseAccountType tstr with
    | none => (s, .invalidType)
    | some t =>
      let p := deleteAccount s.accountsHead t name
      if p.2 = -1 then ({ s with accountsHead := p.1 }, .deleteNotFound)
      else
        ({ s with
            accountsHead := p.1
            deletedAccountNumbersHead :=
              addDeletedAccountNum s.deletedAccountNumbersHead p.2 },
         .deleted p.2)
  | .DISPLAY =>
    ({ s with accountsHead := sortAccountListByNumber s.accountsHead },
     .table (sortAccountListByNumber s.accountsHead))
  | .LOWBALANCE =>
    ({ s with accountsHead := sortAccountListByNumber s.accountsHead },
     .lowTable (lowBalanceAccounts (sortAccountListByNumber s.accountsHead)))
  | .TRANSACTION num amt code =>
    let p := transaction s.accountsHead num amt code
    ({ s with accountsHead := p.1 }, .trans p.2)

/-- Running the command loop from a given state. -/
def runFrom (s : BankState) (cmds : List Command) : BankState :=
  cmds.foldl (fun s c => (step s c).1) s

/-- Running the command loop from program start. -/
def run (cmds : List Command) : BankState :=
  runFrom initialState cmds

/-- The account numbers of the live accounts, in list order. -/
def liveNums (s : BankState) : List Int :=
  s.accountsHead.map (fun a => a.AccountNumber)

/-- The state invariant maintained by the command loop: live account numbers
are distinct, recycled numbers are distinct, both are strictly below the
fresh-number counter, and no live number is simultaneously in the recycle
pool. -/
def BankInv (s : BankState) : Prop :=
  (liveNums s).Nodup ∧
  s.deletedAccountNumbersHead.Nodup ∧
  (∀ n ∈ liveNums s, n < s.globalNextAccountNumber) ∧
  (∀ n ∈ s.deletedAccountNumbersHead, n < s.globalNextAccountNumber) ∧
  (∀ n ∈ liveNums s, n ∉ s.deletedAccountNumbersHead)

/-! ### Lemmas about the recycle-list selection sort -/

theorem minRunnerInt_le : ∀ (ys : List Int) (v : Int), minRunnerInt v ys ≤ v := by
  intro ys
  induction ys with
  | nil => intro v; simp [minRunnerInt]
  | cons y ys ih =>
    intro v
    by_cases h : y < v
    · simp only [minRunnerInt, if_pos h]
      exact le_trans (ih y) (le_of_lt h)
    · simp only [minRunnerInt, if_neg h]
      exact ih v

theorem minRunnerInt_le_mem :
    ∀ (ys : List Int) (v y : Int), y ∈ ys → minRunnerInt v ys ≤ y := by
  intro ys
  induction ys with
  | nil => intro v y hy; cases hy
  | cons z zs ih =>
    intro v y hy
    rcases List.mem_cons.mp hy with hz | hz
    · subst hz
      by_cases h : y < v
      · simp only [minRunnerInt, if_pos h]
        exact minRunnerInt_le zs y
      · simp only [minRunnerInt, if_neg h]
        exact le_trans (minRunnerInt_le zs v) (not_lt.mp h)
    · by_cases h : z < v
      · simp only [minRunnerInt, if_pos h]
        exact ih z y hz
      · simp only [minRunnerInt, if_neg h]
        exact ih v y hz

theorem minRunnerInt_eq_or_mem :
    ∀ (ys : List Int) (v : Int), minRunnerInt v ys = v ∨ minRunnerInt v ys ∈ ys := by
  intro ys
  induction ys with
  | nil => intro v; left; rfl
  | cons z zs ih =>
    intro v
    by_cases h : z < v
    · simp only [minRunnerInt, if_pos h]
      rcases ih z with h1 | h1
      · right; rw [h1]; exact List.mem_cons_self z zs
      · right; exact List.mem_cons_of_mem z h1
    · simp only [minRunnerInt, if_neg h]
      rcases ih v with h1 | h1
      · left; exact h1
      · right; exact List.mem_cons_of_mem z h1

theorem swapFirstInt_fst :
    ∀ (ys : List Int) (v x : Int), v ∈ ys → (swapFirstInt v x ys).1 = v := by
  intro ys
  induction ys with
  | nil => intro v x hv; cases hv
  | cons y ys ih =>
    intro v x hv
    by_cases h : y = v
    · simp [swapFirstInt, h]
    · rcases List.mem_cons.mp hv with h1 | h1
      · exact absurd h1.symm h
      · simp only [swapFirstInt, if_neg h]
        exact ih v x h1

theorem swapFirstInt_perm :
    ∀ (ys : List Int) (v x : Int),
      List.Perm ((swapFirstInt v x ys).1 :: (swapFirstInt v x ys).2) (x :: ys) := by
  intro ys
  induction ys with
  | nil => intro v x; simp [swapFirstInt]
  | cons y ys ih =>
    intro v x
    by_cases h : y = v
    · simp only [swapFirstInt, if_pos h]
      exact List.Perm.swap x y ys
    · simp only [swapFirstInt, if_neg h]
      exact ((List.Perm.swap y _ _).trans ((ih v x).cons y)).trans (List.Perm.swap x y ys)

theorem swapFirstInt_length :
    ∀ (ys : List Int) (v x : Int), (swapFirstInt v x ys).2.length = ys.length := by
  intro ys
  induction ys with
  | nil => intro v x; rfl
  | cons y ys ih =>
    intro v x
    by_cases h : y = v
    · simp [swapFirstInt, h]
    · simp only [swapFirstInt, if_neg h, List.length_cons]
      rw [ih v x]

theorem sortDeletedAux_perm :
    ∀ (n : Nat) (l : List Int), l.length ≤ n → List.Perm (sortDeletedAux n l) l := by
  intro n
  induction n with
  | zero => intro l h; exact List.Perm.refl l
  | succ n ih =>
    intro l h
    match l with
    | [] => exact List.Perm.refl []
    | x :: xs =>
      have hxs : xs.length ≤ n := by simpa using h
      by_cases hv : minRunnerInt x xs = x
      · simp only [sortDeletedAux, if_pos hv]
        exact (ih xs hxs).cons x
      · simp only [sortDeletedAux, if_neg hv]
        have hlen : (swapFirstInt (minRunnerInt x xs) x xs).2.length ≤ n := by
          rw [swapFirstInt_length]; exact hxs
        exact ((ih _ hlen).cons _).trans (swapFirstInt_perm xs (minRunnerInt x xs) x)

theorem sortDeletedAux_sorted :
    ∀ (n : Nat) (l : List Int), l.length ≤ n →
      List.Pairwise (fun a b => a ≤ b) (sortDeletedAux n l) := by
  intro n
  induction n with
  | zero =>
    intro l h
    have : l = [] := List.eq_nil_of_length_eq_zero (Nat.le_zero.mp h)
    subst this
    exact List.Pairwise.nil
  | succ n ih =>
    intro l h
    match l with
    | [] => exact List.Pairwise.nil
    | x :: xs =>
      have hxs : xs.length ≤ n := by simpa using h
      by_cases hv : minRunnerInt x xs = x
      · simp only [sortDeletedAux, if_pos hv]
        refine List.Pairwise.cons ?_ (ih xs hxs)
        intro b hb
        have hbxs : b ∈ xs := (sortDeletedAux_perm n xs hxs).mem_iff.mp hb
        have := minRunnerInt_le_mem xs x b hbxs
        rw [hv] at this
        exact this
      · simp only [sortDeletedAux, if_neg hv]
        have hvmem : minRunnerInt x xs ∈ xs := by
          rcases minRunnerInt_eq_or_mem xs x with h1 | h1
          · exact absurd h1 hv
          · exact h1
        have hlen : (swapFirstInt (minRunnerInt x xs) x xs).2.length ≤ n := by
          rw [swapFirstInt_length]; exact hxs
        refine List.Pairwise.cons ?_ (ih _ hlen)
        intro b hb
        have hb2 : b ∈ (swapFirstInt (minRunnerInt x xs) x xs).2 :=
          (sortDeletedAux_perm n _ hlen).mem_iff.mp hb
        have hb3 : b ∈ x :: xs :=
          (swapFirstInt_perm xs (minRunnerInt x xs) x).mem_iff.mp
            (List.mem_cons_of_mem _ hb2)
        rw [swapFirstInt_fst xs (minRunnerInt x xs) x hvmem]
        rcases List.mem_cons.mp hb3 with h1 | h1
        · rw [h1]; exact minRunnerInt_le xs x
        · exact minRunnerInt_le_mem xs x b h1

theorem sortDeleted_perm (l : List Int) :
    List.Perm (sortDeletedAccountNumList l) l :=
  sortDeletedAux_perm l.length l (le_refl _)

theorem sortDeleted_sorted (l : List Int) :
    List.Pairwise (fun a b => a ≤ b) (sortDeletedAccountNumList l) :=
  sortDeletedAux_sorted l.length l (le_refl _)

theorem sortDeleted_head_min (l : List Int) (m : Int) (rest : List Int)
    (h : sortDeletedAccountNumList l = m :: rest) :
    m ∈ l ∧ (∀ n ∈ l, m ≤ n) ∧ List.Perm (m :: rest) l := by
  have hperm : List.Perm (m :: rest) l := by rw [← h]; exact sortDeleted_perm l
  refine ⟨hperm.mem_iff.mp (List.mem_cons_self m rest), ?_, hperm⟩
  intro n hn
  have hn2 : n ∈ m :: rest := hperm.mem_iff.mpr hn
  rcases List.mem_cons.mp hn2 with h1 | h1
  · rw [h1]
  · have hs := sortDeleted_sorted l
    rw [h] at hs
    exact List.rel_of_pairwise_cons hs h1

/-! ### Lemmas about the account-list selection sort -/

theorem AccountNode.copy_eta (y : AccountNode) :
    ({ AccountNumber := y.AccountNumber, Name := y.Name,
       accountType := y.accountType, Amount := y.Amount } : AccountNode) = y := rfl

theorem minRunnerAcc_le : ∀ (ys : List AccountNode) (v : Int), minRunnerAcc v ys ≤ v := by
  intro ys
  induction ys with
  | nil => intro v; simp [minRunnerAcc]
  | cons y ys ih =>
    intro v
    by_cases h : y.AccountNumber < v
    · simp only [minRunnerAcc, if_pos h]
      exact le_trans (ih y.AccountNumber) (le_of_lt h)
    · simp only [minRunnerAcc, if_neg h]
      exact ih v

theorem minRunnerAcc_le_mem :
    ∀ (ys : List AccountNode) (v : Int) (y : AccountNode), y ∈ ys →
      minRunnerAcc v ys ≤ y.AccountNumber := by
  intro ys
  induction ys with
  | nil => intro v y hy; cases hy
  | cons z zs ih =>
    intro v y hy
    rcases List.mem_cons.mp hy with hz | hz
    · subst hz
      by_cases h : y.AccountNumber < v
      · simp only [minRunnerAcc, if_pos h]
        exact minRunnerAcc_le zs y.AccountNumber
      · simp only [minRunnerAcc, if_neg h]
        exact le_trans (minRunnerAcc_le zs v) (not_lt.mp h)
    · by_cases h : z.AccountNumber < v
      · simp only [minRunnerAcc, if_pos h]
        exact ih z.AccountNumber y hz
      · simp only [minRunnerAcc, if_neg h]
        exact ih v y hz

theorem minRunnerAcc_eq_or_mem :
    ∀ (ys : List AccountNode) (v : Int),
      minRunnerAcc v ys = v ∨ ∃ a ∈ ys, minRunnerAcc v ys = a.AccountNumber := by
  intro ys
  induction ys with
  | nil => intro v; left; rfl
  | cons z zs ih =>
    intro v
    by_cases h : z.AccountNumber < v
    · simp only [minRunnerAcc, if_pos h]
      rcases ih z.AccountNumber with h1 | ⟨a, ha, h1⟩
      · right; exact ⟨z, List.mem_cons_self z zs, h1⟩
      · right; exact ⟨a, List.mem_cons_of_mem z ha, h1⟩
    · simp only [minRunnerAcc, if_neg h]
      rcases ih v with h1 | ⟨a, ha, h1⟩
      · left; exact h1
      · right; exact ⟨a, List.mem_cons_of_mem z ha, h1⟩

theorem swapFirstAcc_fst :
    ∀ (ys : List AccountNode) (v : Int) (x : AccountNode),
      (∃ a ∈ ys, a.AccountNumber = v) → (swapFirstAcc v x ys).1.AccountNumber = v := by
  intro ys
  induction ys with
  | nil => intro v x ⟨a, ha, _⟩; cases ha
  | cons y ys ih =>
    intro v x ⟨a, ha, hav⟩
    by_cases h : y.AccountNumber = v
    · simp [swapFirstAcc, if_pos h, AccountNode.copy_eta, h]
    · rcases List.mem_cons.mp ha with h1 | h1
      · subst h1; exact absurd hav h
      · simp only [swapFirstAcc, if_neg h]
        exact ih v x ⟨a, h1, hav⟩

theorem swapFirstAcc_perm :
    ∀ (ys : List AccountNode) (v : Int) (x : AccountNode),
      List.Perm ((swapFirstAcc v x ys).1 :: (swapFirstAcc v x ys).2) (x :: ys) := by
  intro ys
  induction ys with
  | nil => intro v x; simp [swapFirstAcc]
  | cons y ys ih =>
    intro v x
    by_cases h : y.AccountNumber = v
    · simp only [swapFirstAcc, if_pos h, AccountNode.copy_eta]
      exact List.Perm.swap x y ys
    · simp only [swapFirstAcc, if_neg h]
      exact ((List.Perm.swap y _ _).trans ((ih v x).cons y)).trans (List.Perm.swap x y ys)

theorem swapFirstAcc_length :
    ∀ (ys : List AccountNode) (v : Int) (x : AccountNode),
      (swapFirstAcc v x ys).2.length = ys.length := by
  intro ys
  induction ys with
  | nil => intro v x; rfl
  | cons y ys ih =>
    intro v x
    by_cases h : y.AccountNumber = v
    · simp [swapFirstAcc, h]
    · simp only [swapFirstAcc, if_neg h, List.length_cons]
      rw [ih v x]

theorem sortAccountsAux_perm :
    ∀ (n : Nat) (l : List AccountNode), l.length ≤ n →
      List.Perm (sortAccountsAux n l) l := by
  intro n
  induction n with
  | zero => intro l h; exact List.Perm.refl l
  | succ n ih =>
    intro l h
    match l with
    | [] => exact List.Perm.refl []
    | x :: xs =>
      have hxs : xs.length ≤ n := by simpa using h
      by_cases hv : minRunnerAcc x.AccountNumber xs = x.AccountNumber
      · simp only [sortAccountsAux, if_pos hv]
        exact (ih xs hxs).cons x
      · simp only [sortAccountsAux, if_neg hv]
        have hlen : (swapFirstAcc (minRunnerAcc x.AccountNumber xs) x xs).2.length ≤ n := by
          rw [swapFirstAcc_length]; exact hxs
        exact ((ih _ hlen).cons _).trans
          (swapFirstAcc_perm xs (minRunnerAcc x.AccountNumber xs) x)

theorem sortAccountsAux_sorted :
    ∀ (n : Nat) (l : List AccountNode), l.length ≤ n →
      List.Pairwise (fun a b => a.AccountNumber ≤ b.AccountNumber) (sortAccountsAux n l) := by
  intro n
  induction n with
  | zero =>
    intro l h
    have : l = [] := List.eq_nil_of_length_eq_zero (Nat.le_zero.mp h)
    subst this
    exact List.Pairwise.nil
  | succ n ih =>
    intro l h
    match l with
    | [] => exact List.Pairwise.nil
    | x :: xs =>
      have hxs : xs.length ≤ n := by simpa using h
      by_cases hv : minRunnerAcc x.AccountNumber xs = x.AccountNumber
      · simp only [sortAccountsAux, if_pos hv]
        refine List.Pairwise.cons ?_ (ih xs hxs)
        intro b hb
        have hbxs : b ∈ xs := (sortAccountsAux_perm n xs hxs).mem_iff.mp hb
        have := minRunnerAcc_le_mem xs x.AccountNumber b hbxs
        rw [hv] at this
        exact this
      · simp only [sortAccountsAux, if_neg hv]
        have hvmem : ∃ a ∈ xs, minRunnerAcc x.AccountNumber xs = a.AccountNumber := by
          rcases minRunnerAcc_eq_or_mem xs x.AccountNumber with h1 | h1
          · exact absurd h1 hv
          · exact h1
        obtain ⟨a, ha, hav⟩ := hvmem
        have hlen : (swapFirstAcc (minRunnerAcc x.AccountNumber xs) x xs).2.length ≤ n := by
          rw [swapFirstAcc_length]; exact hxs
        refine List.Pairwise.cons ?_ (ih _ hlen)
        intro b hb
        have hb2 : b ∈ (swapFirstAcc (minRunnerAcc x.AccountNumber xs) x xs).2 :=
          (sortAccountsAux_perm n _ hlen).mem_iff.mp hb
        have hb3 : b ∈ x :: xs :=
          (swapFirstAcc_perm xs (minRunnerAcc x.AccountNumber xs) x).mem_iff.mp
            (List.mem_cons_of_mem _ hb2)
        rw [swapFirstAcc_fst xs (minRunnerAcc x.AccountNumber xs) x ⟨a, ha, hav.symm⟩]
        rcases List.mem_cons.mp hb3 with h1 | h1
        · rw [h1]; exact minRunnerAcc_le xs x.AccountNumber
        · exact minRunnerAcc_le_mem xs x.AccountNumber b h1

theorem sortAccounts_perm (l : List AccountNode) :
    List.Perm (sortAccountListByNumber l) l :=
  sortAccountsAux_perm l.length l (le_refl _)

theorem sortAccounts_sorted (l : List AccountNode) :
    List.Pairwise (fun a b => a.AccountNumber ≤ b.AccountNumber)
      (sortAccountListByNumber l) :=
  sortAccountsAux_sorted l.length l (le_refl _)

/-! ### Lemmas about `transaction` -/

theorem transaction_cons (a : AccountNode) (rest : List AccountNode) (n : Int)
    (amt : ℚ) (code : Int) :
    transaction (a :: rest) n amt code = transactionAux (a :: rest) n amt code := rfl

theorem transactionAux_append (l₁ l₂ : List AccountNode) (n : Int) (amt : ℚ) (code : Int)
    (h : ∀ b ∈ l₁, b.AccountNumber ≠ n) :
    transactionAux (l₁ ++ l₂) n amt code
      = (l₁ ++ (transactionAux l₂ n amt code).1, (transactionAux l₂ n amt code).2) := by
  induction l₁ with
  | nil => rfl
  | cons b l₁ ih =>
    have hb : b.AccountNumber ≠ n := h b (List.mem_cons_self b l₁)
    have ih2 := ih (fun c hc => h c (List.mem_cons_of_mem b hc))
    simp only [List.cons_append, transactionAux, if_neg hb, List.append_eq, ih2]

theorem transactionAux_not_found (l : List AccountNode) (n : Int) (amt : ℚ) (code : Int)
    (h : ∀ a ∈ l, a.AccountNumber ≠ n) :
    transactionAux l n amt code = (l, TransResult.accountNotFound) := by
  induction l with
  | nil => rfl
  | cons a rest ih =>
    have ha : a.AccountNumber ≠ n := h a (List.mem_cons_self a rest)
    have ih2 := ih (fun c hc => h c (List.mem_cons_of_mem a hc))
    simp only [transactionAux, if_neg ha, ih2]

theorem transactionAux_withdraw_savings (acc : AccountNode) (l₂ : List AccountNode) (A : ℚ)
    (htype : acc.accountType = AccountType.SAVINGS) :
    transactionAux (acc :: l₂) acc.AccountNumber A 0
      = if acc.Amount - A < 100 then (acc :: l₂, TransResult.insufficientSavings)
        else ({ acc with Amount := acc.Amount - A } :: l₂,
              TransResult.withdrawOk (acc.Amount - A)) := by
  by_cases hlt : acc.Amount - A < 100
  · simp [transactionAux, htype, hlt]
  · simp [transactionAux, htype, hlt]

theorem transactionAux_withdraw_current (acc : AccountNode) (l₂ : List AccountNode) (A : ℚ)
    (htype : acc.accountType = AccountType.CURRENT) :
    transactionAux (acc :: l₂) acc.AccountNumber A 0
      = if acc.Amount - A < 0 then (acc :: l₂, TransResult.insufficientCurrent)
        else ({ acc with Amount := acc.Amount - A } :: l₂,
              TransResult.withdrawOk (acc.Amount - A)) := by
  by_cases hlt : acc.Amount - A < 0
  · simp [transactionAux, htype, hlt]
  · simp [transactionAux, htype, hlt]

theorem transactionAux_invalid_code_fst (l : List AccountNode) (n : Int) (amt : ℚ)
    (code : Int) (hc1 : code ≠ 1) (hc0 : code ≠ 0) :
    (transactionAux l n amt code).1 = l := by
  induction l with
  | nil => rfl
  | cons a rest ih =>
    by_cases ha : a.AccountNumber = n
    · simp [transactionAux, ha, hc0, hc1]
    · simp [transactionAux, ha, ih]

theorem transactionAux_invalid_code_found (acc : AccountNode) (l₂ : List AccountNode)
    (amt : ℚ) (code : Int) (hc1 : code ≠ 1) (hc0 : code ≠ 0) :
    transactionAux (acc :: l₂) acc.AccountNumber amt code
      = (acc :: l₂, TransResult.invalidCode) := by
  simp [transactionAux, hc0, hc1]

theorem step_transaction_frame (s : BankState) (n : Int) (amt : ℚ) (code : Int) :
    (step s (Command.TRANSACTION n amt code)).1.deletedAccountNumbersHead
        = s.deletedAccountNumbersHead
    ∧ (step s (Command.TRANSACTION n amt code)).1.globalNextAccountNumber
        = s.globalNextAccountNumber := ⟨rfl, rfl⟩

theorem step_transaction_fst (s : BankState) (n : Int) (amt : ℚ) (code : Int)
    (h : (transaction s.accountsHead n amt code).1 = s.accountsHead) :
    (step s (Command.TRANSACTION n amt code)).1 = s := by
  show { s with accountsHead := (transaction s.accountsHead n amt code).1 } = s
  rw [h]

/-- C3: withdrawing `A` from the first live Savings account with the targeted
number fails with the insufficient-balance message exactly when the resulting
balance would drop below 100.00; on failure the account list is unchanged, on
success (including landing exactly on 100.00) the balance is decremented by
`A`; the recycle list and the fresh-number counter are untouched either way. -/
theorem C3_savings_withdrawal (l₁ l₂ : List AccountNode) (acc : AccountNode) (A : ℚ)
    (s : BankState)
    (hfirst : ∀ b ∈ l₁, b.AccountNumber ≠ acc.AccountNumber)
    (htype : acc.accountType = AccountType.SAVINGS) :
    ((transaction (l₁ ++ acc :: l₂) acc.AccountNumber A 0).2
        = TransResult.insufficientSavings ↔ acc.Amount - A < 100)
    ∧ (transaction (l₁ ++ acc :: l₂) acc.AccountNumber A 0).1
        = (if acc.Amount - A < 100 then l₁ ++ acc :: l₂
           else l₁ ++ { acc with Amount := acc.Amount - A } :: l₂)
    ∧ (transaction (l₁ ++ acc :: l₂) acc.AccountNumber A 0).2
        = (if acc.Amount - A < 100 then TransResult.insufficientSavings
           else TransResult.withdrawOk (acc.Amount - A))
    ∧ (step s (Command.TRANSACTION acc.AccountNumber A 0)).1.deletedAccountNumbersHead
        = s.deletedAccountNumbersHead
    ∧ (step s (Command.TRANSACTION acc.AccountNumber A 0)).1.globalNextAccountNumber
        = s.globalNextAccountNumber := by
  have hbridge : transaction (l₁ ++ acc :: l₂) acc.AccountNumber A 0
      = transactionAux (l₁ ++ acc :: l₂) acc.AccountNumber A 0 := by
    cases l₁ <;> rfl
  have htx : transaction (l₁ ++ acc :: l₂) acc.AccountNumber A 0
      = (l₁ ++ (transactionAux (acc :: l₂) acc.AccountNumber A 0).1,
         (transactionAux (acc :: l₂) acc.AccountNumber A 0).2) := by
    rw [hbridge, transactionAux_append l₁ (acc :: l₂) acc.AccountNumber A 0 hfirst]
  refine ⟨?_, ?_, ?_, rfl, rfl⟩ <;>
    rw [htx, transactionAux_withdraw_savings acc l₂ A htype] <;>
    by_cases hlt : acc.Amount - A < 100 <;>
    simp [hlt]

/-- Witness for C3 at a concrete Savings account: balance 150, withdrawal 50. -/
theorem C3_savings_withdrawal_witness :
    ((transaction [⟨100, "Alice", AccountType.SAVINGS, 150⟩] 100 50 0).2
        = TransResult.insufficientSavings ↔ (150 : ℚ) - 50 < 100)
    ∧ (transaction [⟨100, "Alice", AccountType.SAVINGS, 150⟩] 100 50 0).1
        = (if (150 : ℚ) - 50 < 100
           then [⟨100, "Alice", AccountType.SAVINGS, 150⟩]
           else [⟨100, "Alice", AccountType.SAVINGS, 150 - 50⟩])
    ∧ (transaction [⟨100, "Alice", AccountType.SAVINGS, 150⟩] 100 50 0).2
        = (if (150 : ℚ) - 50 < 100 then TransResult.insufficientSavings
           else TransResult.withdrawOk ((150 : ℚ) - 50))
    ∧ (step initialState (Command.TRANSACTION 100 50 0)).1.deletedAccountNumbersHead
        = initialState.deletedAccountNumbersHead
    ∧ (step initialState (Command.TRANSACTION 100 50 0)).1.globalNextAccountNumber
        = initialState.globalNextAccountNumber :=
  C3_savings_withdrawal [] [] ⟨100, "Alice", AccountType.SAVINGS, 150⟩
    50 initialState (by simp) rfl

/-- C4: withdrawing `A` from the first live Current account with the targeted
number fails with the insufficient-balance message exactly when the resulting
balance would drop below 0; on failure the account list is unchanged, on
success (including landing exactly on 0) the balance is decremented by `A`;
the recycle list and the fresh-number counter are untouched either way. -/
theorem C4_current_withdrawal (l₁ l₂ : List AccountNode) (acc : AccountNode) (A : ℚ)
    (s : BankState)
    (hfirst : ∀ b ∈ l₁, b.AccountNumber ≠ acc.AccountNumber)
    (htype : acc.accountType = AccountType.CURRENT) :
    ((transaction (l₁ ++ acc :: l₂) acc.AccountNumber A 0).2
        = TransResult.insufficientCurrent ↔ acc.Amount - A < 0)
    ∧ (transaction (l₁ ++ acc :: l₂) acc.AccountNumber A 0).1
        = (if acc.Amount - A < 0 then l₁ ++ acc :: l₂
           else l₁ ++ { acc with Amount := acc.Amount - A } :: l₂)
    ∧ (transaction (l₁ ++ acc :: l₂) acc.AccountNumber A 0).2
        = (if acc.Amount - A < 0 then TransResult.insufficientCurrent
           else TransResult.withdrawOk (acc.Amount - A))
    ∧ (step s (Command.TRANSACTION acc.AccountNumber A 0)).1.deletedAccountNumbersHead
        = s.deletedAccountNumbersHead
    ∧ (step s (Command.TRANSACTION acc.AccountNumber A 0)).1.globalNextAccountNumber
        = s.globalNextAccountNumber := by
  have hbridge : transaction (l₁ ++ acc :: l₂) acc.AccountNumber A 0
      = transactionAux (l₁ ++ acc :: l₂) acc.AccountNumber A 0 := by
    cases l₁ <;> rfl
  have htx : transaction (l₁ ++ acc :: l₂) acc.AccountNumber A 0
      = (l₁ ++ (transactionAux (acc :: l₂) acc.AccountNumber A 0).1,
         (transactionAux (acc :: l₂) acc.AccountNumber A 0).2) := by
    rw [hbridge, transactionAux_append l₁ (acc :: l₂) acc.AccountNumber A 0 hfirst]
  refine ⟨?_, ?_, ?_, rfl, rfl⟩ <;>
    rw [htx, transactionAux_withdraw_current acc l₂ A htype] <;>
    by_cases hlt : acc.Amount - A < 0 <;>
    simp [hlt]

/-- Witness for C4 at a concrete Current account: balance 150, withdrawal 150. -/
theorem C4_current_withdrawal_witness :
    ((transaction [⟨100, "Bob", AccountType.CURRENT, 150⟩] 100 150 0).2
        = TransResult.insufficientCurrent ↔ (150 : ℚ) - 150 < 0)
    ∧ (transaction [⟨100, "Bob", AccountType.CURRENT, 150⟩] 100 150 0).1
        = (if (150 : ℚ) - 150 < 0
           then [⟨100, "Bob", AccountType.CURRENT, 150⟩]
           else [⟨100, "Bob", AccountType.CURRENT, 150 - 150⟩])
    ∧ (transaction [⟨100, "Bob", AccountType.CURRENT, 150⟩] 100 150 0).2
        = (if (150 : ℚ) - 150 < 0 then TransResult.insufficientCurrent
           else TransResult.withdrawOk ((150 : ℚ) - 150))
    ∧ (step initialState (Command.TRANSACTION 100 150 0)).1.deletedAccountNumbersHead
        = initialState.deletedAccountNumbersHead
    ∧ (step initialState (Command.TRANSACTION 100 150 0)).1.globalNextAccountNumber
        = initialState.globalNextAccountNumber :=
  C4_current_withdrawal [] [] ⟨100, "Bob", AccountType.CURRENT, 150⟩
    150 initialState (by simp) rfl

/-- C8: a transaction aimed at a number held by no live account rejects the
request with the not-found message (the empty list prints its own flavour of
it) and changes nothing: not the account list, the state record, the recycle
list, or the counter. -/
theorem C8_transaction_unknown_number (l : List AccountNode) (n : Int) (amt : ℚ)
    (code : Int) (s : BankState)
    (h : ∀ a ∈ l, a.AccountNumber ≠ n)
    (hs : s.accountsHead = l) :
    (transaction l n amt code).1 = l
    ∧ (transaction l n amt code).2
        = (if l = [] then TransResult.noAccounts else TransResult.accountNotFound)
    ∧ (step s (Command.TRANSACTION n amt code)).1 = s := by
  have hmain : (transaction l n amt code).1 = l
      ∧ (transaction l n amt code).2
        = (if l = [] then TransResult.noAccounts else TransResult.accountNotFound) := by
    match l with
    | [] => exact ⟨rfl, rfl⟩
    | a :: rest =>
      rw [transaction_cons, transactionAux_not_found (a :: rest) n amt code h]
      simp
  refine ⟨hmain.1, hmain.2, step_transaction_fst s n amt code ?_⟩
  rw [hs]
  exact hmain.1

/-- Witness for C8: one live account numbered 100, transaction aimed at 101. -/
theorem C8_transaction_unknown_number_witness :
    (transaction [⟨100, "Alice", AccountType.SAVINGS, 500⟩] 101 5 0).1
        = [⟨100, "Alice", AccountType.SAVINGS, 500⟩]
    ∧ (transaction [⟨100, "Alice", AccountType.SAVINGS, 500⟩] 101 5 0).2
        = (if ([⟨100, "Alice", AccountType.SAVINGS, 500⟩] : List AccountNode) = []
           then TransResult.noAccounts else TransResult.accountNotFound)
    ∧ (step ⟨[], [⟨100, "Alice", AccountType.SAVINGS, 500⟩], 101⟩
        (Command.TRANSACTION 101 5 0)).1
        = ⟨[], [⟨100, "Alice", AccountType.SAVINGS, 500⟩], 101⟩ :=
  C8_transaction_unknown_number [⟨100, "Alice", AccountType.SAVINGS, 500⟩] 101 5 0
    ⟨[], [⟨100, "Alice", AccountType.SAVINGS, 500⟩], 101⟩ (by decide) rfl

/-- C9 counterexample: with one live account numbered 100, a transaction aimed
at the nonexistent number 101 with the invalid code 2 is answered with the
account-not-found message, not the invalid-code message, because the code is
only inspected after the account lookup succeeds. -/
theorem C9_counterexample :
    (transaction [⟨100, "Alice", AccountType.SAVINGS, 500⟩] 101 5 2).2
        = TransResult.accountNotFound
    ∧ (transaction [⟨100, "Alice", AccountType.SAVINGS, 500⟩] 101 5 2).2
        ≠ TransResult.invalidCode := by
  exact ⟨by decide, by decide⟩

/-- C9 (amended): a transaction whose code is neither 1 nor 0 never changes
any state; when the targeted account exists the outcome is the invalid-code
rejection, but the code check sits inside the lookup loop, so when no live
account has the number the outcome is the not-found rejection instead. -/
theorem C9_invalid_code (l : List AccountNode) (n : Int) (amt : ℚ) (code : Int)
    (l₁ l₂ : List AccountNode) (acc : AccountNode) (s : BankState)
    (hc1 : code ≠ 1) (hc0 : code ≠ 0)
    (hs : s.accountsHead = l) :
    (transaction l n amt code).1 = l
    ∧ (step s (Command.TRANSACTION n amt code)).1 = s
    ∧ (l = l₁ ++ acc :: l₂ → (∀ b ∈ l₁, b.AccountNumber ≠ n) → acc.AccountNumber = n →
        (transaction l n amt code).2 = TransResult.invalidCode)
    ∧ ((∀ a ∈ l, a.AccountNumber ≠ n) →
        (transaction l n amt code).2
          = (if l = [] then TransResult.noAccounts else TransResult.accountNotFound)) := by
  have hfst : (transaction l n amt code).1 = l := by
    match l with
    | [] => rfl
    | a :: rest =>
      rw [transaction_cons]
      exact transactionAux_invalid_code_fst (a :: rest) n amt code hc1 hc0
  refine ⟨hfst, step_transaction_fst s n amt code (by rw [hs]; exact hfst), ?_, ?_⟩
  · intro he hfirst hacc
    subst he
    have hbridge : transaction (l₁ ++ acc :: l₂) n amt code
        = transactionAux (l₁ ++ acc :: l₂) n amt code := by
      cases l₁ <;> rfl
    rw [hbridge, transactionAux_append l₁ (acc :: l₂) n amt code hfirst]
    rw [← hacc, transactionAux_invalid_code_found acc l₂ amt code hc1 hc0]
  · intro hnone
    match l with
    | [] => rfl
    | a :: rest =>
      rw [transaction_cons, transactionAux_not_found (a :: rest) n amt code hnone]
      simp

/-- Witness for C9 at a concrete state: code 2 on an existing account yields
the invalid-code rejection and no state change. -/
theorem C9_invalid_code_witness :
    (transaction [⟨100, "Alice", AccountType.SAVINGS, 500⟩] 100 5 2).1
        = [⟨100, "Alice", AccountType.SAVINGS, 500⟩]
    ∧ (step ⟨[], [⟨100, "Alice", AccountType.SAVINGS, 500⟩], 101⟩
        (Command.TRANSACTION 100 5 2)).1
        = ⟨[], [⟨100, "Alice", AccountType.SAVINGS, 500⟩], 101⟩
    ∧ (transaction [⟨100, "Alice", AccountType.SAVINGS, 500⟩] 100 5 2).2
        = TransResult.invalidCode :=
  have h := C9_invalid_code [⟨100, "Alice", AccountType.SAVINGS, 500⟩] 100 5 2
    [] [] ⟨100, "Alice", AccountType.SAVINGS, 500⟩
    ⟨[], [⟨100, "Alice", AccountType.SAVINGS, 500⟩], 101⟩
    (by decide) (by decide) rfl
  ⟨h.1, h.2.1, h.2.2.1 rfl (by decide) rfl⟩

/-! ### Lemmas about the CREATE step -/

theorem step_create_fresh (s : BankState) (tstr : String) (ty : AccountType)
    (name : String) (amt : ℚ)
    (hp : parseAccountType tstr = some ty)
    (hdup : checkDuplicateAccount s.accountsHead name ty = false)
    (hpool : s.deletedAccountNumbersHead = []) :
    step s (Command.CREATE tstr name amt)
      = (⟨[], s.accountsHead ++ [⟨s.globalNextAccountNumber, name, ty, amt⟩],
          s.globalNextAccountNumber + 1⟩,
         Output.created s.globalNextAccountNumber) := by
  simp [step, hp, hdup, hpool, sortDeletedAccountNumList, sortDeletedAux, createAccount]

theorem step_create_pool (s : BankState) (tstr : String) (ty : AccountType)
    (name : String) (amt : ℚ) (m : Int) (rest : List Int)
    (hp : parseAccountType tstr = some ty)
    (hdup : checkDuplicateAccount s.accountsHead name ty = false)
    (hsort : sortDeletedAccountNumList s.deletedAccountNumbersHead = m :: rest) :
    step s (Command.CREATE tstr name amt)
      = (⟨rest, s.accountsHead ++ [⟨m, name, ty, amt⟩], s.globalNextAccountNumber⟩,
         Output.created m) := by
  simp [step, hp, hdup, hsort, createAccount]

theorem sorted_pair_of_perm (l : List Int) (X Y : Int) (hXY : X < Y)
    (hperm : List.Perm l [X, Y])
    (hs : List.Pairwise (fun a b => a ≤ b) l) : l = [X, Y] := by
  have hlen : l.length = 2 := by simpa using hperm.length_eq
  match l, hlen, hperm, hs with
  | [a, b], _, hperm, hs =>
    have hX : X ∈ [a, b] := hperm.mem_iff.mpr (by simp)
    have hY : Y ∈ [a, b] := hperm.mem_iff.mpr (by simp)
    have hab : a ≤ b := List.rel_of_pairwise_cons hs (by simp)
    simp only [List.mem_cons, List.mem_singleton, List.not_mem_nil, or_false] at hX hY
    rcases hX with hX | hX <;> rcases hY with hY | hY
    · exfalso; omega
    · rw [hX, hY]
    · exfalso; omega
    · exfalso; omega

theorem sortDeleted_pair (l : List Int) (X Y : Int) (hXY : X < Y)
    (hperm : List.Perm l [X, Y]) :
    sortDeletedAccountNumList l = [X, Y] :=
  sorted_pair_of_perm _ X Y hXY ((sortDeleted_perm l).trans hperm)
    (sortDeleted_sorted l)

theorem sortDeleted_singleton (Y : Int) : sortDeletedAccountNumList [Y] = [Y] := by
  simp [sortDeletedAccountNumList, sortDeletedAux, minRunnerInt]

/-- C1: a successful CREATE always consults the recycle pool first: when the
pool is non-empty it mints the smallest pooled number, removes it from the
pool and leaves the counter untouched; only when the pool is empty does it
mint the counter value and post-increment the counter.  In particular, when
exactly the two numbers `X < Y` have been deleted, the next successful CREATE
reuses `X`, the one after reuses `Y`, and only the third mints a fresh
number. -/
theorem C1_mint_policy (s : BankState) (tstr name : String) (ty : AccountType)
    (amt : ℚ) (m : Int) (rest : List Int) (X Y : Int)
    (tstr2 name2 : String) (ty2 : AccountType) (amt2 : ℚ)
    (tstr3 name3 : String) (ty3 : AccountType) (amt3 : ℚ)
    (hp : parseAccountType tstr = some ty)
    (hdup : checkDuplicateAccount s.accountsHead name ty = false) :
    (s.deletedAccountNumbersHead = [] →
      (step s (Command.CREATE tstr name amt)).2 = Output.created s.globalNextAccountNumber
      ∧ (step s (Command.CREATE tstr name amt)).1.accountsHead
          = s.accountsHead ++ [⟨s.globalNextAccountNumber, name, ty, amt⟩]
      ∧ (step s (Command.CREATE tstr name amt)).1.deletedAccountNumbersHead = []
      ∧ (step s (Command.CREATE tstr name amt)).1.globalNextAccountNumber
          = s.globalNextAccountNumber + 1)
    ∧ (sortDeletedAccountNumList s.deletedAccountNumbersHead = m :: rest →
      m ∈ s.deletedAccountNumbersHead
      ∧ (∀ n ∈ s.deletedAccountNumbersHead, m ≤ n)
      ∧ (step s (Command.CREATE tstr name amt)).2 = Output.created m
      ∧ (step s (Command.CREATE tstr name amt)).1.accountsHead
          = s.accountsHead ++ [⟨m, name, ty, amt⟩]
      ∧ (step s (Command.CREATE tstr name amt)).1.deletedAccountNumbersHead = rest
      ∧ List.Perm (m :: rest) s.deletedAccountNumbersHead
      ∧ (step s (Command.CREATE tstr name amt)).1.globalNextAccountNumber
          = s.globalNextAccountNumber)
    ∧ (List.Perm s.deletedAccountNumbersHead [X, Y] → X < Y →
      (step s (Command.CREATE tstr name amt)).2 = Output.created X
      ∧ (step s (Command.CREATE tstr name amt)).1.deletedAccountNumbersHead = [Y]
      ∧ (step s (Command.CREATE tstr name amt)).1.globalNextAccountNumber
          = s.globalNextAccountNumber
      ∧ (parseAccountType tstr2 = some ty2 →
         checkDuplicateAccount (step s (Command.CREATE tstr name amt)).1.accountsHead
             name2 ty2 = false →
         (step (step s (Command.CREATE tstr name amt)).1
             (Command.CREATE tstr2 name2 amt2)).2 = Output.created Y
         ∧ (step (step s (Command.CREATE tstr name amt)).1
             (Command.CREATE tstr2 name2 amt2)).1.deletedAccountNumbersHead = []
         ∧ (step (step s (Command.CREATE tstr name amt)).1
             (Command.CREATE tstr2 name2 amt2)).1.globalNextAccountNumber
             = s.globalNextAccountNumber
         ∧ (parseAccountType tstr3 = some ty3 →
            checkDuplicateAccount (step (step s (Command.CREATE tstr name amt)).1
                (Command.CREATE tstr2 name2 amt2)).1.accountsHead name3 ty3 = false →
            (step (step (step s (Command.CREATE tstr name amt)).1
                (Command.CREATE tstr2 name2 amt2)).1
                (Command.CREATE tstr3 name3 amt3)).2
              = Output.created s.globalNextAccountNumber
            ∧ (step (step (step s (Command.CREATE tstr name amt)).1
                (Command.CREATE tstr2 name2 amt2)).1
                (Command.CREATE tstr3 name3 amt3)).1.globalNextAccountNumber
              = s.globalNextAccountNumber + 1))) := by
  refine ⟨?_, ?_, ?_⟩
  · intro hpool
    rw [step_create_fresh s tstr ty name amt hp hdup hpool]
    exact ⟨rfl, rfl, rfl, rfl⟩
  · intro hsort
    obtain ⟨hmem, hmin, hperm⟩ := sortDeleted_head_min _ m rest hsort
    rw [step_create_pool s tstr ty name amt m rest hp hdup hsort]
    exact ⟨hmem, hmin, rfl, rfl, rfl, hperm, rfl⟩
  · intro hperm hXY
    have hsort : sortDeletedAccountNumList s.deletedAccountNumbersHead = [X, Y] :=
      sortDeleted_pair _ X Y hXY hperm
    rw [step_create_pool s tstr ty name amt X [Y] hp hdup hsort]
    refine ⟨rfl, rfl, rfl, ?_⟩
    intro hp2 hdup2
    rw [step_create_pool _ tstr2 ty2 name2 amt2 Y [] hp2 hdup2 (sortDeleted_singleton Y)]
    refine ⟨rfl, rfl, rfl, ?_⟩
    intro hp3 hdup3
    rw [step_create_fresh _ tstr3 ty3 name3 amt3 hp3 hdup3 rfl]
    exact ⟨rfl, rfl⟩

/-- Witness for C1: pool `[101, 100]` (deleted in that order), counter 102.
Three successive creates mint 100, then 101, then the fresh 102; a create on
an empty pool mints the counter value and bumps it. -/
theorem C1_mint_policy_witness :
    (100 : Int) ∈ ([101, 100] : List Int)
    ∧ (step ⟨[101, 100], [], 102⟩ (Command.CREATE "savings" "A" 5)).2 = Output.created 100
    ∧ (step ⟨[101, 100], [], 102⟩
        (Command.CREATE "savings" "A" 5)).1.deletedAccountNumbersHead = [101]
    ∧ (step ⟨[101, 100], [], 102⟩
        (Command.CREATE "savings" "A" 5)).1.globalNextAccountNumber = 102
    ∧ (step (step ⟨[101, 100], [], 102⟩ (Command.CREATE "savings" "A" 5)).1
        (Command.CREATE "savings" "B" 5)).2 = Output.created 101
    ∧ (step (step ⟨[101, 100], [], 102⟩ (Command.CREATE "savings" "A" 5)).1
        (Command.CREATE "savings" "B" 5)).1.deletedAccountNumbersHead = []
    ∧ (step (step (step ⟨[101, 100], [], 102⟩ (Command.CREATE "savings" "A" 5)).1
        (Command.CREATE "savings" "B" 5)).1 (Command.CREATE "savings" "C" 5)).2
        = Output.created 102
    ∧ (step (step (step ⟨[101, 100], [], 102⟩ (Command.CREATE "savings" "A" 5)).1
        (Command.CREATE "savings" "B" 5)).1
        (Command.CREATE "savings" "C" 5)).1.globalNextAccountNumber = 102 + 1
    ∧ (step ⟨[], [], 102⟩ (Command.CREATE "savings" "D" 5)).2 = Output.created 102
    ∧ (step ⟨[], [], 102⟩
        (Command.CREATE "savings" "D" 5)).1.globalNextAccountNumber = 102 + 1 :=
  have h := C1_mint_policy ⟨[101, 100], [], 102⟩ "savings" "A" AccountType.SAVINGS 5
    100 [101] 100 101 "savings" "B" AccountType.SAVINGS 5 "savings" "C"
    AccountType.SAVINGS 5 rfl (by decide)
  have h2 := h.2.1 (by decide)
  have h3 := h.2.2 (by decide) (by decide)
  have h4 := h3.2.2.2 rfl (by decide)
  have h5 := h4.2.2.2 rfl (by decide)
  have h0 := (C1_mint_policy ⟨[], [], 102⟩ "savings" "D" AccountType.SAVINGS 5
    100 [] 100 101 "savings" "B" AccountType.SAVINGS 5 "savings" "C"
    AccountType.SAVINGS 5 rfl (by decide)).1 rfl
  ⟨h2.1, h3.1, h3.2.1, h3.2.2.1, h4.1, h4.2.1, h5.1, h5.2, h0.1, h0.2.2.2⟩

theorem checkDuplicateAccount_iff (l : List AccountNode) (nm : String) (t : AccountType) :
    checkDuplicateAccount l nm t = true ↔ ∃ a ∈ l, a.Name = nm ∧ a.accountType = t := by
  induction l with
  | nil => simp [checkDuplicateAccount]
  | cons a rest ih =>
    by_cases h : a.Name = nm ∧ a.accountType = t
    · simp only [checkDuplicateAccount, if_pos h]
      constructor
      · intro _; exact ⟨a, List.mem_cons_self a rest, h⟩
      · intro _; trivial
    · simp only [checkDuplicateAccount, if_neg h]
      rw [ih]
      constructor
      · rintro ⟨b, hb, hbp⟩
        exact ⟨b, List.mem_cons_of_mem a hb, hbp⟩
      · rintro ⟨b, hb, hbp⟩
        rcases List.mem_cons.mp hb with h1 | h1
        · subst h1; exact absurd hbp h
        · exact ⟨b, h1, hbp⟩

/-- C5: with a valid account-type string, CREATE is rejected as a duplicate
exactly when a live account with the identical `(name, type)` pair already
exists, and a rejected CREATE leaves the whole state (accounts, recycle list,
counter) untouched. -/
theorem C5_duplicate_create (s : BankState) (tstr name : String) (ty : AccountType)
    (amt : ℚ) (hp : parseAccountType tstr = some ty) :
    ((step s (Command.CREATE tstr name amt)).2 = Output.duplicate
        ↔ ∃ a ∈ s.accountsHead, a.Name = name ∧ a.accountType = ty)
    ∧ (checkDuplicateAccount s.accountsHead name ty = true →
        (step s (Command.CREATE tstr name amt)).1 = s) := by
  constructor
  · rw [← checkDuplicateAccount_iff]
    by_cases hdup : checkDuplicateAccount s.accountsHead name ty = true
    · simp [step, hp, hdup]
    · have hdf : checkDuplicateAccount s.accountsHead name ty = false := by
        simpa using hdup
      cases hsort : sortDeletedAccountNumList s.deletedAccountNumbersHead with
      | nil =>
        have hpool : s.deletedAccountNumbersHead = [] := by
          have hp2 := sortDeleted_perm s.deletedAccountNumbersHead
          rw [hsort] at hp2
          exact hp2.symm.eq_nil
        rw [step_create_fresh s tstr ty name amt hp hdf hpool]
        simp [hdf]
      | cons m rest =>
        rw [step_create_pool s tstr ty name amt m rest hp hdf hsort]
        simp [hdf]
  · intro hdup
    simp [step, hp, hdup]

/-- Witness for C5: one live Savings account named "A"; creating "A" again is
the duplicate rejection and mutates nothing. -/
theorem C5_duplicate_create_witness :
    ((step ⟨[], [⟨100, "A", AccountType.SAVINGS, 5⟩], 101⟩
        (Command.CREATE "savings" "A" 7)).2 = Output.duplicate
      ↔ ∃ a ∈ ([⟨100, "A", AccountType.SAVINGS, 5⟩] : List AccountNode),
          a.Name = "A" ∧ a.accountType = AccountType.SAVINGS)
    ∧ (step ⟨[], [⟨100, "A", AccountType.SAVINGS, 5⟩], 101⟩
        (Command.CREATE "savings" "A" 7)).1
        = ⟨[], [⟨100, "A", AccountType.SAVINGS, 5⟩], 101⟩ :=
  have h := C5_duplicate_create ⟨[], [⟨100, "A", AccountType.SAVINGS, 5⟩], 101⟩
    "savings" "A" AccountType.SAVINGS 7 rfl
  ⟨h.1, h.2 (by decide)⟩

/-- C6: the table printed by DISPLAY is the account list freshly sorted
ascending by account number (a permutation of the live accounts), LOWBALANCE
likewise prints a freshly sorted selection, and CREATE appends the new account
at the end of the collection, so the sortedness of the output is owed to the
per-request sort, not to insertion order. -/
theorem C6_display_sorted (cmds : List Command) (s : BankState) (tstr name : String)
    (ty : AccountType) (amt : ℚ) :
    ((step (run cmds) Command.DISPLAY).2
        = Output.table (sortAccountListByNumber (run cmds).accountsHead)
      ∧ List.Pairwise (fun a b => a.AccountNumber ≤ b.AccountNumber)
          (sortAccountListByNumber (run cmds).accountsHead)
      ∧ List.Perm (sortAccountListByNumber (run cmds).accountsHead)
          (run cmds).accountsHead)
    ∧ ((step (run cmds) Command.LOWBALANCE).2
        = Output.lowTable
            (lowBalanceAccounts (sortAccountListByNumber (run cmds).accountsHead))
      ∧ List.Pairwise (fun a b => a.AccountNumber ≤ b.AccountNumber)
          (lowBalanceAccounts (sortAccountListByNumber (run cmds).accountsHead)))
    ∧ (parseAccountType tstr = some ty →
       checkDuplicateAccount s.accountsHead name ty = false →
       ∃ acc, (step s (Command.CREATE tstr name amt)).1.accountsHead
           = s.accountsHead ++ [acc]) := by
  refine ⟨⟨rfl, sortAccounts_sorted _, sortAccounts_perm _⟩,
    ⟨rfl, List.Pairwise.sublist (List.filter_sublist _) (sortAccounts_sorted _)⟩, ?_⟩
  intro hp hdup
  cases hsort : sortDeletedAccountNumList s.deletedAccountNumbersHead with
  | nil =>
    have hpool : s.deletedAccountNumbersHead = [] := by
      have hp2 := sortDeleted_perm s.deletedAccountNumbersHead
      rw [hsort] at hp2
      exact hp2.symm.eq_nil
    rw [step_create_fresh s tstr ty name amt hp hdup hpool]
    exact ⟨⟨s.globalNextAccountNumber, name, ty, amt⟩, rfl⟩
  | cons m rest =>
    rw [step_create_pool s tstr ty name amt m rest hp hdup hsort]
    exact ⟨⟨m, name, ty, amt⟩, rfl⟩

/-- Witness for C6 after one CREATE: the DISPLAY table is the sorted list,
and a successful CREATE appends at the end. -/
theorem C6_display_sorted_witness :
    ((step (run [Command.CREATE "savings" "A" 5]) Command.DISPLAY).2
        = Output.table (sortAccountListByNumber
            (run [Command.CREATE "savings" "A" 5]).accountsHead)
      ∧ List.Pairwise (fun a b => a.AccountNumber ≤ b.AccountNumber)
          (sortAccountListByNumber (run [Command.CREATE "savings" "A" 5]).accountsHead)
      ∧ List.Perm
          (sortAccountListByNumber (run [Command.CREATE "savings" "A" 5]).accountsHead)
          (run [Command.CREATE "savings" "A" 5]).accountsHead)
    ∧ ∃ acc, (step initialState (Command.CREATE "savings" "B" 5)).1.accountsHead
        = initialState.accountsHead ++ [acc] :=
  have h := C6_display_sorted [Command.CREATE "savings" "A" 5] initialState
    "savings" "B" AccountType.SAVINGS 5
  ⟨h.1, h.2.2 rfl (by decide)⟩

/-- C7: the LOWBALANCE report contains exactly the live accounts whose balance
is strictly below 100 (an account holding exactly 100 is excluded), it is a
permutation of that filtered selection, and it is listed ascending by account
number. -/
theorem C7_lowbalance (s : BankState) (a : AccountNode) :
    (step s Command.LOWBALANCE).2
        = Output.lowTable (lowBalanceAccounts (sortAccountListByNumber s.accountsHead))
    ∧ (a ∈ lowBalanceAccounts (sortAccountListByNumber s.accountsHead)
        ↔ a ∈ s.accountsHead ∧ a.Amount < 100)
    ∧ List.Perm (lowBalanceAccounts (sortAccountListByNumber s.accountsHead))
        (s.accountsHead.filter (fun b => decide (b.Amount < 100)))
    ∧ List.Pairwise (fun x y => x.AccountNumber ≤ y.AccountNumber)
        (lowBalanceAccounts (sortAccountListByNumber s.accountsHead)) := by
  refine ⟨rfl, ?_, ?_, ?_⟩
  · rw [lowBalanceAccounts, List.mem_filter]
    constructor
    · rintro ⟨h1, h2⟩
      exact ⟨(sortAccounts_perm _).mem_iff.mp h1, of_decide_eq_true h2⟩
    · rintro ⟨h1, h2⟩
      exact ⟨(sortAccounts_perm _).mem_iff.mpr h1, decide_eq_true h2⟩
  · exact (sortAccounts_perm s.accountsHead).filter _
  · exact List.Pairwise.sublist (List.filter_sublist _) (sortAccounts_sorted _)

/-- C10: the selection sort used for DISPLAY and LOWBALANCE only reorders the
account list: the result is a permutation of the input at the level of whole
account records, so every account keeps its own four fields and none is lost
or duplicated. -/
theorem C10_sort_preserves_accounts (l : List AccountNode) (a : AccountNode) :
    List.Perm (sortAccountListByNumber l) l
    ∧ (sortAccountListByNumber l).count a = l.count a
    ∧ (sortAccountListByNumber l).length = l.length :=
  ⟨sortAccounts_perm l, (sortAccounts_perm l).count_eq a, (sortAccounts_perm l).length_eq⟩

/-! ### Lemmas for the state invariant (C2) -/

theorem transactionAux_map_num (l : List AccountNode) (n : Int) (amt : ℚ) (code : Int) :
    ((transactionAux l n amt code).1).map (fun a => a.AccountNumber)
      = l.map (fun a => a.AccountNumber) := by
  induction l with
  | nil => rfl
  | cons a rest ih =>
    by_cases ha : a.AccountNumber = n
    · simp only [transactionAux, if_pos ha]
      by_cases h1 : code = 1
      · simp [h1]
      · by_cases h0 : code = 0
        · simp only [if_neg h1, if_pos h0]
          split
          · simp
          · split <;> simp
        · simp [h1, h0]
    · simp [transactionAux, ha, ih]

theorem transaction_map_num (l : List AccountNode) (n : Int) (amt : ℚ) (code : Int) :
    ((transaction l n amt code).1).map (fun a => a.AccountNumber)
      = l.map (fun a => a.AccountNumber) := by
  match l with
  | [] => rfl
  | a :: rest => exact transactionAux_map_num (a :: rest) n amt code

theorem deleteAccount_spec (l : List AccountNode) (t : AccountType) (nm : String) :
    deleteAccount l t nm = (l, -1)
    ∨ ∃ l₁ a l₂, l = l₁ ++ a :: l₂
        ∧ deleteAccount l t nm = (l₁ ++ l₂, a.AccountNumber) := by
  induction l with
  | nil => left; rfl
  | cons a rest ih =>
    by_cases h : a.Name = nm ∧ a.accountType = t
    · right
      exact ⟨[], a, rest, rfl, by simp [deleteAccount, h]⟩
    · rcases ih with h1 | ⟨l₁, b, l₂, he, hd⟩
      · left
        simp [deleteAccount, h, h1]
      · right
        refine ⟨a :: l₁, b, l₂, by rw [he]; rfl, ?_⟩
        simp [deleteAccount, h, hd]

theorem BankInv_def (pool : List Int) (accounts : List AccountNode) (next : Int) :
    BankInv ⟨pool, accounts, next⟩ ↔
      ((accounts.map (fun a => a.AccountNumber)).Nodup
       ∧ pool.Nodup
       ∧ (∀ n ∈ accounts.map (fun a => a.AccountNumber), n < next)
       ∧ (∀ n ∈ pool, n < next)
       ∧ (∀ n ∈ accounts.map (fun a => a.AccountNumber), n ∉ pool)) := Iff.rfl

theorem BankInv_step (s : BankState) (c : Command) (h : BankInv s) :
    BankInv (step s c).1 := by
  obtain ⟨hnd, hpd, hlt, hplt, hdisj⟩ := h
  simp only [liveNums] at hnd hlt hdisj
  cases c with
  | CREATE tstr name amt =>
    cases hpt : parseAccountType tstr with
    | none =>
      simp only [step, hpt]
      exact ⟨hnd, hpd, hlt, hplt, hdisj⟩
    | some t =>
      by_cases hdup : checkDuplicateAccount s.accountsHead name t = true
      · simp only [step, hpt, hdup, if_pos]
        exact ⟨hnd, hpd, hlt, hplt, hdisj⟩
      · have hdf : checkDuplicateAccount s.accountsHead name t = false := by
          simpa using hdup
        cases hsort : sortDeletedAccountNumList s.deletedAccountNumbersHead with
        | nil =>
          have hpool : s.deletedAccountNumbersHead = [] := by
            have hp2 := sortDeleted_perm s.deletedAccountNumbersHead
            rw [hsort] at hp2
            exact hp2.symm.eq_nil
          have hstep : (step s (Command.CREATE tstr name amt)).1
              = ⟨[], s.accountsHead ++ [⟨s.globalNextAccountNumber, name, t, amt⟩],
                 s.globalNextAccountNumber + 1⟩ := by
            rw [step_create_fresh s tstr t name amt hpt hdf hpool]
          rw [hstep, BankInv_def]
          simp only [List.map_append, List.map_cons, List.map_nil]
          refine ⟨?_, List.nodup_nil, ?_, ?_, ?_⟩
          · rw [List.nodup_append, List.disjoint_singleton]
            refine ⟨hnd, List.nodup_singleton _, ?_⟩
            intro hmem
            exact absurd (hlt _ hmem) (lt_irrefl _)
          · intro v hv
            rcases List.mem_append.mp hv with hv | hv
            · have := hlt v hv
              omega
            · rw [List.mem_singleton] at hv
              omega
          · intro v hv
            cases hv
          · intro v hv hv2
            cases hv2
        | cons m rest =>
          obtain ⟨hmem, hmin, hperm⟩ := sortDeleted_head_min _ m rest hsort
          have hmr : (m :: rest).Nodup := hperm.symm.nodup hpd
          rw [List.nodup_cons] at hmr
          have hstep : (step s (Command.CREATE tstr name amt)).1
              = ⟨rest, s.accountsHead ++ [⟨m, name, t, amt⟩],
                 s.globalNextAccountNumber⟩ := by
            rw [step_create_pool s tstr t name amt m rest hpt hdf hsort]
          rw [hstep, BankInv_def]
          simp only [List.map_append, List.map_cons, List.map_nil]
          refine ⟨?_, hmr.2, ?_, ?_, ?_⟩
          · rw [List.nodup_append, List.disjoint_singleton]
            refine ⟨hnd, List.nodup_singleton _, ?_⟩
            intro hmem2
            exact hdisj m hmem2 hmem
          · intro v hv
            rcases List.mem_append.mp hv with hv | hv
            · exact hlt v hv
            · rw [List.mem_singleton] at hv
              subst hv
              exact hplt v hmem
          · intro v hv
            exact hplt v (hperm.subset (List.mem_cons_of_mem m hv))
          · intro v hv hv2
            rcases List.mem_append.mp hv with hv | hv
            · exact hdisj v hv (hperm.subset (List.mem_cons_of_mem m hv2))
            · rw [List.mem_singleton] at hv
              subst hv
              exact hmr.1 hv2
  | DELETE tstr name =>
    cases hpt : parseAccountType tstr with
    | none =>
      simp only [step, hpt]
      exact ⟨hnd, hpd, hlt, hplt, hdisj⟩
    | some t =>
      rcases deleteAccount_spec s.accountsHead t name with hsp | ⟨l₁, a, l₂, he, hsp⟩
      · simp only [step, hpt, hsp]
        exact ⟨hnd, hpd, hlt, hplt, hdisj⟩
      · have hsub : List.Sublist ((l₁ ++ l₂).map (fun a => a.AccountNumber))
            ((l₁ ++ a :: l₂).map (fun a => a.AccountNumber)) :=
          List.Sublist.map _ (List.Sublist.append_left (List.sublist_cons_self a l₂) l₁)
        have hperm2 : List.Perm ((l₁ ++ a :: l₂).map (fun a => a.AccountNumber))
            (a.AccountNumber :: (l₁ ++ l₂).map (fun a => a.AccountNumber)) := by
          have hmid0 : List.Perm (l₁ ++ a :: l₂) (a :: (l₁ ++ l₂)) := List.perm_middle
          have hmid := List.Perm.map (fun a => a.AccountNumber) hmid0
          simp only [List.map_append, List.map_cons] at hmid
          simp only [List.map_append, List.map_cons]
          exact hmid
        rw [he] at hnd hlt hdisj
        have hacons : (a.AccountNumber
            :: (l₁ ++ l₂).map (fun a => a.AccountNumber)).Nodup := hperm2.nodup hnd
        rw [List.nodup_cons] at hacons
        have hamem : a.AccountNumber ∈ (l₁ ++ a :: l₂).map (fun a => a.AccountNumber) :=
          List.mem_map_of_mem _ (by simp)
        by_cases hneg : a.AccountNumber = -1
        · have hstep : (step s (Command.DELETE tstr name)).1
              = ⟨s.deletedAccountNumbersHead, l₁ ++ l₂, s.globalNextAccountNumber⟩ := by
            simp only [step, hpt, hsp, hneg, if_pos]
          rw [hstep, BankInv_def]
          refine ⟨hacons.2, hpd, ?_, hplt, ?_⟩
          · intro v hv
            exact hlt v (hsub.subset hv)
          · intro v hv
            exact hdisj v (hsub.subset hv)
        · have hstep : (step s (Command.DELETE tstr name)).1
              = ⟨addDeletedAccountNum s.deletedAccountNumbersHead a.AccountNumber,
                 l₁ ++ l₂, s.globalNextAccountNumber⟩ := by
            simp only [step, hpt, hsp, if_neg hneg]
          rw [hstep, BankInv_def]
          simp only [addDeletedAccountNum]
          refine ⟨hacons.2, ?_, ?_, ?_, ?_⟩
          · rw [List.nodup_append, List.disjoint_singleton]
            exact ⟨hpd, List.nodup_singleton _, hdisj a.AccountNumber hamem⟩
          · intro v hv
            exact hlt v (hsub.subset hv)
          · intro v hv
            rcases List.mem_append.mp hv with hv | hv
            · exact hplt v hv
            · rw [List.mem_singleton] at hv
              subst hv
              exact hlt _ hamem
          · intro v hv hv2
            rcases List.mem_append.mp hv2 with hv2 | hv2
            · exact hdisj v (hsub.subset hv) hv2
            · rw [List.mem_singleton] at hv2
              subst hv2
              exact hacons.1 hv
  | DISPLAY =>
    have hperm2 : List.Perm
        ((sortAccountListByNumber s.accountsHead).map (fun a => a.AccountNumber))
        (s.accountsHead.map (fun a => a.AccountNumber)) :=
      List.Perm.map _ (sortAccounts_perm s.accountsHead)
    refine ⟨hperm2.symm.nodup hnd, hpd, ?_, hplt, ?_⟩
    · intro v hv
      exact hlt v (hperm2.subset hv)
    · intro v hv
      exact hdisj v (hperm2.subset hv)
  | LOWBALANCE =>
    have hperm2 : List.Perm
        ((sortAccountListByNumber s.accountsHead).map (fun a => a.AccountNumber))
        (s.accountsHead.map (fun a => a.AccountNumber)) :=
      List.Perm.map _ (sortAccounts_perm s.accountsHead)
    refine ⟨hperm2.symm.nodup hnd, hpd, ?_, hplt, ?_⟩
    · intro v hv
      exact hlt v (hperm2.subset hv)
    · intro v hv
      exact hdisj v (hperm2.subset hv)
  | TRANSACTION n amt code =>
    have hmap := transaction_map_num s.accountsHead n amt code
    refine ⟨?_, hpd, ?_, hplt, ?_⟩
    · show (((transaction s.accountsHead n amt code).1).map
        (fun a => a.AccountNumber)).Nodup
      rw [hmap]
      exact hnd
    · intro v hv
      rw [show liveNums (step s (Command.TRANSACTION n amt code)).1
        = s.accountsHead.map (fun a => a.AccountNumber) from hmap] at hv
      exact hlt v hv
    · intro v hv
      rw [show liveNums (step s (Command.TRANSACTION n amt code)).1
        = s.accountsHead.map (fun a => a.AccountNumber) from hmap] at hv
      exact hdisj v hv

theorem BankInv_initial : BankInv initialState := by
  rw [initialState, BankInv_def]
  refine ⟨List.nodup_nil, List.nodup_nil, ?_, ?_, ?_⟩ <;> intro v hv <;> cases hv

theorem BankInv_runFrom (cmds : List Command) (s : BankState) (h : BankInv s) :
    BankInv (runFrom s cmds) := by
  induction cmds generalizing s with
  | nil => exact h
  | cons c cs ih => exact ih (step s c).1 (BankInv_step s c h)

theorem BankInv_run (cmds : List Command) : BankInv (run cmds) :=
  BankInv_runFrom cmds initialState BankInv_initial


theorem step_counter_mono (s : BankState) (c : Command) :
    s.globalNextAccountNumber ≤ (step s c).1.globalNextAccountNumber := by
  cases c with
  | CREATE tstr name amt =>
    cases hpt : parseAccountType tstr with
    | none =>
      simp only [step, hpt]
      exact le_refl _
    | some t =>
      by_cases hdup : checkDuplicateAccount s.accountsHead name t = true
      · simp only [step, hpt, hdup, if_pos]
        exact le_refl _
      · have hdf : checkDuplicateAccount s.accountsHead name t = false := by
          simpa using hdup
        cases hsort : sortDeletedAccountNumList s.deletedAccountNumbersHead with
        | nil =>
          have hpool : s.deletedAccountNumbersHead = [] := by
            have hp2 := sortDeleted_perm s.deletedAccountNumbersHead
            rw [hsort] at hp2
            exact hp2.symm.eq_nil
          rw [step_create_fresh s tstr t name amt hpt hdf hpool]
          show s.globalNextAccountNumber ≤ s.globalNextAccountNumber + 1
          omega
        | cons m rest =>
          rw [step_create_pool s tstr t name amt m rest hpt hdf hsort]
  | DELETE tstr name =>
    cases hpt : parseAccountType tstr with
    | none =>
      simp only [step, hpt]
      exact le_refl _
    | some t =>
      simp only [step, hpt]
      split <;> exact le_refl _
  | DISPLAY => exact le_refl _
  | LOWBALANCE => exact le_refl _
  | TRANSACTION n amt code => exact le_refl _

theorem step_counter_cases (s : BankState) (c : Command) :
    (step s c).1.globalNextAccountNumber = s.globalNextAccountNumber
    ∨ (step s c).1.globalNextAccountNumber = s.globalNextAccountNumber + 1 := by
  cases c with
  | CREATE tstr name amt =>
    cases hpt : parseAccountType tstr with
    | none =>
      left
      simp only [step, hpt]
    | some t =>
      by_cases hdup : checkDuplicateAccount s.accountsHead name t = true
      · left
        simp only [step, hpt, hdup, if_pos]
      · have hdf : checkDuplicateAccount s.accountsHead name t = false := by
          simpa using hdup
        cases hsort : sortDeletedAccountNumList s.deletedAccountNumbersHead with
        | nil =>
          have hpool : s.deletedAccountNumbersHead = [] := by
            have hp2 := sortDeleted_perm s.deletedAccountNumbersHead
            rw [hsort] at hp2
            exact hp2.symm.eq_nil
          right
          rw [step_create_fresh s tstr t name amt hpt hdf hpool]
        | cons m rest =>
          left
          rw [step_create_pool s tstr t name amt m rest hpt hdf hsort]
  | DELETE tstr name =>
    cases hpt : parseAccountType tstr with
    | none =>
      left
      simp only [step, hpt]
    | some t =>
      left
      simp only [step, hpt]
      split <;> rfl
  | DISPLAY => left; rfl
  | LOWBALANCE => left; rfl
  | TRANSACTION n amt code => left; rfl

theorem step_counter_succ_iff (s : BankState) (c : Command) :
    (step s c).1.globalNextAccountNumber = s.globalNextAccountNumber + 1
    ↔ ∃ tstr name amt ty, c = Command.CREATE tstr name amt
        ∧ parseAccountType tstr = some ty
        ∧ checkDuplicateAccount s.accountsHead name ty = false
        ∧ s.deletedAccountNumbersHead = [] := by
  cases c with
  | CREATE tstr name amt =>
    cases hpt : parseAccountType tstr with
    | none =>
      simp only [step, hpt]
      constructor
      · intro hc
        exact absurd hc (by omega)
      · rintro ⟨tstr2, name2, amt2, ty2, he, hp2, -, -⟩
        rw [Command.CREATE.injEq] at he
        obtain ⟨he1, he2, he3⟩ := he
        subst he1
        rw [hpt] at hp2
        cases hp2
    | some t =>
      by_cases hdup : checkDuplicateAccount s.accountsHead name t = true
      · simp only [step, hpt, hdup, if_pos]
        constructor
        · intro hc
          exact absurd hc (by omega)
        · rintro ⟨tstr2, name2, amt2, ty2, he, hp2, hd2, -⟩
          rw [Command.CREATE.injEq] at he
          obtain ⟨he1, he2, he3⟩ := he
          subst he1
          subst he2
          rw [hpt] at hp2
          cases hp2
          rw [hdup] at hd2
          cases hd2
      · have hdf : checkDuplicateAccount s.accountsHead name t = false := by
          simpa using hdup
        cases hsort : sortDeletedAccountNumList s.deletedAccountNumbersHead with
        | nil =>
          have hpool : s.deletedAccountNumbersHead = [] := by
            have hp2 := sortDeleted_perm s.deletedAccountNumbersHead
            rw [hsort] at hp2
            exact hp2.symm.eq_nil
          rw [step_create_fresh s tstr t name amt hpt hdf hpool]
          exact iff_of_true rfl ⟨tstr, name, amt, t, rfl, hpt, hdf, hpool⟩
        | cons m rest =>
          rw [step_create_pool s tstr t name amt m rest hpt hdf hsort]
          constructor
          · intro hc
            have hc2 : s.globalNextAccountNumber = s.globalNextAccountNumber + 1 := hc
            exact absurd hc2 (by omega)
          · rintro ⟨tstr2, name2, amt2, ty2, he, hp2, hd2, hpool2⟩
            rw [hpool2] at hsort
            cases hsort
  | DELETE tstr name =>
    have h3 : (step s (Command.DELETE tstr name)).1.globalNextAccountNumber
        = s.globalNextAccountNumber := by
      cases hpt : parseAccountType tstr with
      | none => simp only [step, hpt]
      | some t =>
        simp only [step, hpt]
        split <;> rfl
    constructor
    · intro hc
      rw [h3] at hc
      exact absurd hc (by omega)
    · rintro ⟨tstr2, name2, amt2, ty2, he, -, -, -⟩
      cases he
  | DISPLAY =>
    constructor
    · intro hc
      have hc2 : s.globalNextAccountNumber = s.globalNextAccountNumber + 1 := hc
      exact absurd hc2 (by omega)
    · rintro ⟨tstr2, name2, amt2, ty2, he, -, -, -⟩
      cases he
  | LOWBALANCE =>
    constructor
    · intro hc
      have hc2 : s.globalNextAccountNumber = s.globalNextAccountNumber + 1 := hc
      exact absurd hc2 (by omega)
    · rintro ⟨tstr2, name2, amt2, ty2, he, -, -, -⟩
      cases he
  | TRANSACTION n amt code =>
    constructor
    · intro hc
      have hc2 : s.globalNextAccountNumber = s.globalNextAccountNumber + 1 := hc
      exact absurd hc2 (by omega)
    · rintro ⟨tstr2, name2, amt2, ty2, he, -, -, -⟩
      cases he


theorem runFrom_counter_mono (cmds : List Command) (s : BankState) :
    s.globalNextAccountNumber ≤ (runFrom s cmds).globalNextAccountNumber := by
  induction cmds generalizing s with
  | nil => exact le_refl _
  | cons c cs ih =>
    exact le_trans (step_counter_mono s c) (ih (step s c).1)

theorem created_lt_next (s : BankState) (c : Command) (v : Int) (hinv : BankInv s)
    (h : (step s c).2 = Output.created v) :
    v < (step s c).1.globalNextAccountNumber := by
  obtain ⟨-, -, -, hplt, -⟩ := hinv
  cases c with
  | CREATE tstr name amt =>
    cases hpt : parseAccountType tstr with
    | none =>
      rw [show (step s (Command.CREATE tstr name amt)).2 = Output.invalidType by
        simp only [step, hpt]] at h
      cases h
    | some t =>
      by_cases hdup : checkDuplicateAccount s.accountsHead name t = true
      · rw [show (step s (Command.CREATE tstr name amt)).2 = Output.duplicate by
          simp only [step, hpt, hdup, if_pos]] at h
        cases h
      · have hdf : checkDuplicateAccount s.accountsHead name t = false := by
          simpa using hdup
        cases hsort : sortDeletedAccountNumList s.deletedAccountNumbersHead with
        | nil =>
          have hpool : s.deletedAccountNumbersHead = [] := by
            have hp2 := sortDeleted_perm s.deletedAccountNumbersHead
            rw [hsort] at hp2
            exact hp2.symm.eq_nil
          rw [step_create_fresh s tstr t name amt hpt hdf hpool] at h ⊢
          have hv : s.globalNextAccountNumber = v := by
            rw [Output.created.injEq] at h
            exact h
          show v < s.globalNextAccountNumber + 1
          omega
        | cons m rest =>
          obtain ⟨hmem, -, -⟩ := sortDeleted_head_min _ m rest hsort
          rw [step_create_pool s tstr t name amt m rest hpt hdf hsort] at h ⊢
          have hv : m = v := by
            rw [Output.created.injEq] at h
            exact h
          show v < s.globalNextAccountNumber
          rw [← hv]
          exact hplt m hmem
  | DELETE tstr name =>
    cases hpt : parseAccountType tstr with
    | none =>
      rw [show (step s (Command.DELETE tstr name)).2 = Output.invalidType by
        simp only [step, hpt]] at h
      cases h
    | some t =>
      simp only [step, hpt] at h
      split at h <;> cases h
  | DISPLAY => cases h
  | LOWBALANCE => cases h
  | TRANSACTION n amt code => cases h

/-- C2: in every state reachable from the initial state the live account
numbers are pairwise distinct; on any step the counter never decreases and it
grows by exactly one precisely when a brand-new (non-recycled) number is
minted; every number held by a live account or by the recycle pool of a
reachable state is strictly below the counter; and any number issued by a
CREATE at a reachable state stays strictly below the counter after any
further sequence of commands. -/
theorem C2_invariants (cmds : List Command) (s : BankState) (c : Command) (n : Int)
    (cmds2 : List Command) (v : Int) :
    (liveNums (run cmds)).Nodup
    ∧ s.globalNextAccountNumber ≤ (step s c).1.globalNextAccountNumber
    ∧ ((step s c).1.globalNextAccountNumber = s.globalNextAccountNumber
        ∨ (step s c).1.globalNextAccountNumber = s.globalNextAccountNumber + 1)
    ∧ ((step s c).1.globalNextAccountNumber = s.globalNextAccountNumber + 1
        ↔ ∃ tstr name amt ty, c = Command.CREATE tstr name amt
            ∧ parseAccountType tstr = some ty
            ∧ checkDuplicateAccount s.accountsHead name ty = false
            ∧ s.deletedAccountNumbersHead = [])
    ∧ (n ∈ liveNums (run cmds) → n < (run cmds).globalNextAccountNumber)
    ∧ (n ∈ (run cmds).deletedAccountNumbersHead → n < (run cmds).globalNextAccountNumber)
    ∧ ((step (run cmds) c).2 = Output.created v →
        v < (runFrom (step (run cmds) c).1 cmds2).globalNextAccountNumber) := by
  obtain ⟨h1, h2, h3, h4, h5⟩ := BankInv_run cmds
  refine ⟨h1, step_counter_mono s c, step_counter_cases s c, step_counter_succ_iff s c,
    fun hm => h3 n hm, fun hm => h4 n hm, ?_⟩
  intro hout
  exact lt_of_lt_of_le (created_lt_next (run cmds) c v (BankInv_run cmds) hout)
    (runFrom_counter_mono cmds2 (step (run cmds) c).1)

/-- Witness for C2: after a create, live numbers are distinct and the freshly
issued number 100 stays below the counter, also once deleted into the pool and
after further commands. -/
theorem C2_invariants_witness :
    (liveNums (run [Command.CREATE "savings" "A" 5])).Nodup
    ∧ initialState.globalNextAccountNumber
        ≤ (step initialState (Command.CREATE "savings" "A" 5)).1.globalNextAccountNumber
    ∧ (100 : Int) < (run [Command.CREATE "savings" "A" 5]).globalNextAccountNumber
    ∧ (100 : Int) < (run [Command.CREATE "savings" "A" 5,
        Command.DELETE "savings" "A"]).globalNextAccountNumber
    ∧ (100 : Int) < (runFrom
        (step (run []) (Command.CREATE "savings" "A" 5)).1
        [Command.CREATE "savings" "B" 7]).globalNextAccountNumber :=
  have hA := C2_invariants [Command.CREATE "savings" "A" 5] initialState
    (Command.CREATE "savings" "A" 5) 100 [] 100
  have hB := C2_invariants [Command.CREATE "savings" "A" 5, Command.DELETE "savings" "A"]
    initialState (Command.CREATE "savings" "A" 5) 100 [] 100
  have hC := C2_invariants [] initialState (Command.CREATE "savings" "A" 5) 100
    [Command.CREATE "savings" "B" 7] 100
  ⟨hA.1, hA.2.1, hA.2.2.2.2.1 (by decide), hB.2.2.2.2.2.1 (by decide),
    hC.2.2.2.2.2.2 (by decide)⟩
